import Mathlib

/-!
Verification development for a small TCP request/response server
(`src/server.rs`).  The server decodes protobuf envelopes from a stream,
dispatches EchoMessage / AddRequest variants, and writes back responses;
`Server::run` owns a non-blocking accept loop plus a join-on-shutdown drain,
and `Server::stop` flips a shared `is_running` flag and then polls it.

The development shallowly embeds `Client::handle`, the drain phase of
`Server::run`, and `Server::stop`.  The prost wire codec is an external
collaborator, so the handler is parametrized over an abstract `Codec`
(a decode function `List Nat → Except Unit ClientMessageWrapper` and an
encode function `ServerMessageWrapper → List Nat`); the theorems hold for
every codec.  I/O is modelled by event traces: each loop iteration consumes
one read outcome (bytes / would-block / error) together with the success
of any write performed in that iteration.
-/

namespace RustTask

/-- Mirrors `EchoMessage { content: String }` from the generated message module. -/
structure EchoMessage where
  content : String
  deriving DecidableEq, Repr

/-- Mirrors `AddRequest { a: i32, b: i32 }`; the i32 fields are carried as `Int`,
with two's-complement width handled explicitly by `i32Add`. -/
structure AddRequest where
  a : Int
  b : Int
  deriving DecidableEq, Repr

/-- Mirrors `AddResponse { result: i32 }`. -/
structure AddResponse where
  result : Int
  deriving DecidableEq, Repr

/-- The `client_message::Message` oneof: exactly one of EchoMessage or
AddRequest. -/
inductive ClientMessage where
  | echoMessage (m : EchoMessage)
  | addRequest (m : AddRequest)
  deriving DecidableEq, Repr

/-- The `server_message::Message` oneof: exactly one of EchoMessage or
AddResponse. -/
inductive ServerMessage where
  | echoMessage (m : EchoMessage)
  | addResponse (m : AddResponse)
  deriving DecidableEq, Repr

/-- Mirrors `ClientMessageWrapper { message: Option<client_message::Message> }`. -/
structure ClientMessageWrapper where
  message : Option ClientMessage
  deriving DecidableEq, Repr

/-- Mirrors `ServerMessageWrapper { message: Option<server_message::Message> }`. -/
structure ServerMessageWrapper where
  message : Option ServerMessage
  deriving DecidableEq, Repr

/-- Log levels of the `log` crate calls that appear in `server.rs`. -/
inductive LogLevel where
  | info
  | warn
  | error
  deriving DecidableEq, Repr

/-- One constructor per distinct log statement in `server.rs`. -/
inductive LogMsg where
  | infoDisconnected
  | infoReceivedEcho (content : String)
  | infoReceivedAdd (a b : Int)
  | infoSentAdd (result : Int)
  | warnNoneType
  | errorDecode
  | errorRead
  | infoNewClient
  | errorAccept
  | infoStoppingWait
  | warnJoinFail
  | infoAllFinished
  | infoShutdownSignal
  | infoStopped
  | warnTooLong
  | warnAlreadyStopped
  deriving DecidableEq, Repr

/-- The level each log statement is emitted at (`info!` / `warn!` /
`error!` in the source). -/
def severity : LogMsg → LogLevel
  | LogMsg.infoDisconnected => LogLevel.info
  | LogMsg.infoReceivedEcho _ => LogLevel.info
  | LogMsg.infoReceivedAdd _ _ => LogLevel.info
  | LogMsg.infoSentAdd _ => LogLevel.info
  | LogMsg.warnNoneType => LogLevel.warn
  | LogMsg.errorDecode => LogLevel.error
  | LogMsg.errorRead => LogLevel.error
  | LogMsg.infoNewClient => LogLevel.info
  | LogMsg.errorAccept => LogLevel.error
  | LogMsg.infoStoppingWait => LogLevel.info
  | LogMsg.warnJoinFail => LogLevel.warn
  | LogMsg.infoAllFinished => LogLevel.info
  | LogMsg.infoShutdownSignal => LogLevel.info
  | LogMsg.infoStopped => LogLevel.info
  | LogMsg.warnTooLong => LogLevel.warn
  | LogMsg.warnAlreadyStopped => LogLevel.warn

/-- Rust `i32` addition, two's-complement wraparound of `a + b`
(release-mode semantics; within the representable range it agrees with
the mathematical sum, which is all the spec relies on). -/
def i32Add (a b : Int) : Int :=
  (a + b + 2147483648) % 4294967296 - 2147483648

/-- The wire codec, an opaque external collaborator: `decode` of prost's
`ClientMessageWrapper::decode` (which may fail), `encode` of
`ServerMessageWrapper::encode_to_vec`. -/
structure Codec where
  decode : List Nat → Except Unit ClientMessageWrapper
  encode : ServerMessageWrapper → List Nat

/-- Outcome of one `self.stream.read(&mut buffer)` call.
`readOk bytes` is `Ok(n)` returning the slice `buffer[..n]`
(`readOk []` is `Ok(0)`, peer closed); `wouldBlock` is
`Err(WouldBlock)`; `readErr` is any other read error. -/
inductive ReadEvent where
  | readOk (bytes : List Nat)
  | wouldBlock
  | readErr
  deriving DecidableEq, Repr

/-- Control decision at the end of one loop iteration in
`Client::handle`: keep looping, sleep 100ms then keep looping,
`break` followed by `Ok(())`, or propagate a write error via `?`. -/
inductive StepAction where
  | contLoop
  | sleepRetry
  | exitClean
  | exitErr
  deriving DecidableEq, Repr

/-- What one iteration of the `Client::handle` loop did: payloads
successfully written with `write_all`, logs emitted, and how control
continues. -/
structure StepResult where
  writes : List (List Nat)
  logs : List LogMsg
  action : StepAction
  deriving DecidableEq, Repr

/-- One iteration of the `loop` in `Client::handle`, given the outcome of
the read and whether a `write_all` issued in this iteration succeeds.
Mirrors the source match arms in order: `Ok(0)`, `Ok(n)` with the decode
sub-match (EchoMessage / AddRequest / None / decode error),
`Err(WouldBlock)`, other `Err`. -/
def handleStep (c : Codec) (writeOk : Bool) : ReadEvent → StepResult
  | ReadEvent.readOk bytes =>
    match bytes with
    | [] => ⟨[], [LogMsg.infoDisconnected], StepAction.exitClean⟩
    | b :: rest =>
      match c.decode (b :: rest) with
      | Except.ok ⟨some (ClientMessage.echoMessage em)⟩ =>
        let payload := c.encode ⟨some (ServerMessage.echoMessage em)⟩
        if writeOk then
          ⟨[payload], [LogMsg.infoReceivedEcho em.content], StepAction.contLoop⟩
        else
          ⟨[], [LogMsg.infoReceivedEcho em.content], StepAction.exitErr⟩
      | Except.ok ⟨some (ClientMessage.addRequest ar)⟩ =>
        let result := i32Add ar.a ar.b
        let payload := c.encode ⟨some (ServerMessage.addResponse ⟨result⟩)⟩
        if writeOk then
          ⟨[payload], [LogMsg.infoReceivedAdd ar.a ar.b, LogMsg.infoSentAdd result],
            StepAction.contLoop⟩
        else
          ⟨[], [LogMsg.infoReceivedAdd ar.a ar.b], StepAction.exitErr⟩
      | Except.ok ⟨none⟩ => ⟨[], [LogMsg.warnNoneType], StepAction.contLoop⟩
      | Except.error _ => ⟨[], [LogMsg.errorDecode], StepAction.contLoop⟩
  | ReadEvent.wouldBlock => ⟨[], [], StepAction.sleepRetry⟩
  | ReadEvent.readErr => ⟨[], [LogMsg.errorRead], StepAction.exitClean⟩

/-- How `Client::handle` has ended after consuming a finite trace:
still inside the loop (`running`), returned `Ok(())` (`finishedClean`),
or returned the propagated write error (`finishedErr`). -/
inductive HandlerStatus where
  | running
  | finishedClean
  | finishedErr
  deriving DecidableEq, Repr

/-- Cumulative observable behaviour of `Client::handle` on a trace. -/
structure HandlerResult where
  writes : List (List Nat)
  logs : List LogMsg
  status : HandlerStatus
  deriving DecidableEq, Repr

/-- The loop of `Client::handle` run over a finite trace of read outcomes, each paired
with the success of any write performed in that iteration.  Each cycle
fully completes — including its write — before the next trace element is
consumed. -/
def clientHandle (c : Codec) : List (ReadEvent × Bool) → HandlerResult
  | [] => ⟨[], [], HandlerStatus.running⟩
  | (ev, w) :: rest =>
    let s := handleStep c w ev
    match s.action with
    | StepAction.exitClean => ⟨s.writes, s.logs, HandlerStatus.finishedClean⟩
    | StepAction.exitErr => ⟨s.writes, s.logs, HandlerStatus.finishedErr⟩
    | StepAction.contLoop =>
      let r := clientHandle c rest
      ⟨s.writes ++ r.writes, s.logs ++ r.logs, r.status⟩
    | StepAction.sleepRetry =>
      let r := clientHandle c rest
      ⟨s.writes ++ r.writes, s.logs ++ r.logs, r.status⟩

/-- The pure request-to-response mapping implemented by the two populated
match arms of `Client::handle` (the Dispatcher of the spec). -/
def dispatch : ClientMessage → ServerMessageWrapper
  | ClientMessage.echoMessage em => ⟨some (ServerMessage.echoMessage em)⟩
  | ClientMessage.addRequest ar =>
    ⟨some (ServerMessage.addResponse ⟨i32Add ar.a ar.b⟩)⟩

/-- Outcome of one `self.listener.accept()` iteration in `Server::run`
while `is_running` reads `true`.  `conn joinOk` is a successful accept
whose spawned worker's eventual `join()` succeeds iff `joinOk`. -/
inductive AcceptEvent where
  | conn (joinOk : Bool)
  | wouldBlock
  | acceptErr
  deriving DecidableEq, Repr

/-- Registry contents after the accept loop: one handle per successful
accept, in push order (index 0 pushed first, as in the `Vec`); the handle
is recorded as its join outcome. -/
def registryOf : List AcceptEvent → List Bool
  | [] => []
  | AcceptEvent.conn j :: rest => j :: registryOf rest
  | AcceptEvent.wouldBlock :: rest => registryOf rest
  | AcceptEvent.acceptErr :: rest => registryOf rest

/-- Logs produced by the accept loop. -/
def acceptLogs : List AcceptEvent → List LogMsg
  | [] => []
  | AcceptEvent.conn _ :: rest => LogMsg.infoNewClient :: acceptLogs rest
  | AcceptEvent.wouldBlock :: rest => acceptLogs rest
  | AcceptEvent.acceptErr :: rest => LogMsg.errorAccept :: acceptLogs rest

/-- The drain loop `while let Some(handle) = clients.pop()` of
`Server::run`, given the handles in pop order (last pushed first, since
`Vec::pop` takes the back).  Returns the registry left when `pop` yields
`None` (so the loop exits), the warn logs of failed joins, and the number
of handles joined.  A failed `join()` only logs
(`unwrap_or_else(|_| warn!(..))`) and the loop continues. -/
def drainLoop : List Bool → List Bool × List LogMsg × Nat
  | [] => ([], [], 0)
  | j :: rest =>
    let r := drainLoop rest
    (r.1, (if j then [] else [LogMsg.warnJoinFail]) ++ r.2.1, r.2.2 + 1)

/-- Observable outcome of `Server::run`. -/
structure RunOutcome where
  finalRegistry : List Bool
  joined : Nat
  logs : List LogMsg
  retOk : Bool
  deriving Repr

/-- The body of `Server::run` over the iterations observed while `is_running` read
`true` (the trace ends at the first `false` load, where the `while` exits):
the accept phase registers a worker per successful accept, then the drain
pops and joins every handle; `run` returns `Ok(())`. -/
def runModel (evs : List AcceptEvent) : RunOutcome :=
  let reg := registryOf evs
  let d := drainLoop reg.reverse
  { finalRegistry := d.1
    joined := d.2.2
    logs := acceptLogs evs ++ [LogMsg.infoStoppingWait] ++ d.2.1 ++ [LogMsg.infoAllFinished]
    retOk := true }

/-- Server state visible to `stop()`: the `is_running` flag and the
registry of worker handles (again recorded as join outcomes). -/
structure ServerState where
  isRunning : Bool
  clients : List Bool
  deriving DecidableEq, Repr

/-- How the wait loop inside `stop()` ended: a load of `is_running`
returned `false` after `polls` body executions (each body execution is one
100ms sleep); or the elapsed-time guard `elapsed > 5s` fired after `polls`
polls; `fuelOut` is the artefact of the fuelled recursion and is proved
unreachable. -/
inductive WaitOutcome where
  | observedFalse (polls : Nat)
  | timedOut (polls : Nat)
  | fuelOut (polls : Nat)
  deriving DecidableEq, Repr

/-- The wait loop of `stop()`:
`while is_running.load() { if elapsed > 5s { warn; break } sleep(100ms) }`.
`obs i` is the value the `i`-th load returns (with no concurrent writer it
is the `false` just stored).  At the `i`-th poll, `i` sleeps of 100ms have
elapsed, so the guard compares `100 * i > 5000`. -/
def stopWaitGo (obs : Nat → Bool) : Nat → Nat → WaitOutcome
  | 0, i => WaitOutcome.fuelOut i
  | fuel + 1, i =>
    if obs i then
      if 100 * i > 5000 then WaitOutcome.timedOut i
      else stopWaitGo obs fuel (i + 1)
    else WaitOutcome.observedFalse i

/-- The wait loop started right after `stop()` stores `false`; fuel 60
exceeds the at most 52 polls the 5-second guard permits. -/
def stopWait (obs : Nat → Bool) : WaitOutcome :=
  stopWaitGo obs 60 0

/-- Observable outcome of `Server::stop`: the server state it leaves
behind, its logs, and the wait loop's outcome (`none` when the
already-stopped branch was taken and the wait loop never ran). -/
structure StopResult where
  state : ServerState
  logs : List LogMsg
  wait : Option WaitOutcome
  deriving DecidableEq, Repr

/-- The body of `Server::stop`: if `is_running` loads `true`, store `false`, run the
wait loop (logging the too-long warning on timeout), log stopped; else log
the already-stopped warning and do nothing.  `stop` never touches the
clients registry and joins no handle. -/
def stopModel (s : ServerState) (obs : Nat → Bool) : StopResult :=
  if s.isRunning then
    let w := stopWait obs
    { state := { isRunning := false, clients := s.clients }
      logs := [LogMsg.infoShutdownSignal] ++
        (match w with
         | WaitOutcome.timedOut _ => [LogMsg.warnTooLong]
         | _ => []) ++ [LogMsg.infoStopped]
      wait := some w }
  else
    { state := s, logs := [LogMsg.warnAlreadyStopped], wait := none }

/-- A 10,000-character content, matching the large-message test. -/
def bigEchoContent : String := String.mk (List.replicate 10000 's')

/-- A concrete codec instance used to exercise the handler theorems on
closed inputs. -/
def demoCodec : Codec where
  decode := fun bs =>
    match bs with
    | 1 :: _ => Except.ok ⟨some (ClientMessage.echoMessage ⟨"hello"⟩)⟩
    | 2 :: _ => Except.ok ⟨some (ClientMessage.addRequest ⟨10, 20⟩)⟩
    | 3 :: _ => Except.ok ⟨none⟩
    | 4 :: _ => Except.ok ⟨some (ClientMessage.echoMessage ⟨bigEchoContent⟩)⟩
    | _ => Except.error ()
  encode := fun _ => [7]

/-- Wraparound `i32` addition agrees with the mathematical sum whenever
the sum is representable in signed 32 bits. -/
theorem i32Add_eq_of_representable (a b : Int)
    (hlo : -2147483648 ≤ a + b) (hhi : a + b < 2147483648) :
    i32Add a b = a + b := by
  unfold i32Add
  rw [Int.emod_eq_of_lt (by omega) (by omega)]
  omega

/-- C1: a read whose bytes decode to an envelope with a populated
EchoMessage variant of content `s` makes the handler write back, on the
same connection, exactly the encoding of a response envelope whose
EchoMessage carries `s` unchanged, and continue the loop.  The statement
quantifies over every codec and every content `s`, so it covers the empty
string and contents of 10,000 characters and beyond. -/
theorem echo_request_byte_identical (c : Codec) (bs : List Nat) (em : EchoMessage)
    (hne : bs ≠ []) (hdec : c.decode bs = Except.ok ⟨some (ClientMessage.echoMessage em)⟩) :
    handleStep c true (ReadEvent.readOk bs) =
      ⟨[c.encode ⟨some (ServerMessage.echoMessage em)⟩],
       [LogMsg.infoReceivedEcho em.content], StepAction.contLoop⟩ := by
  cases bs with
  | nil => exact absurd rfl hne
  | cons b rest => simp [handleStep, hdec]

/-- Witness for C1 at the 10,000-character content of the large-message
test. -/
theorem echo_request_byte_identical_witness :
    handleStep demoCodec true (ReadEvent.readOk [4]) =
      ⟨[demoCodec.encode ⟨some (ServerMessage.echoMessage ⟨bigEchoContent⟩)⟩],
       [LogMsg.infoReceivedEcho bigEchoContent], StepAction.contLoop⟩ :=
  echo_request_byte_identical demoCodec [4] ⟨bigEchoContent⟩ (by simp) rfl

/-- C2: a read whose bytes decode to an envelope with a populated
AddRequest variant carrying signed 32-bit integers `a` and `b` whose sum
is representable in signed 32 bits makes the handler write back exactly
the encoding of an AddResponse envelope with result `a + b`; the addition
is the unguarded fixed-width one (`i32Add`), which on the representable
range coincides with the exact sum. -/
theorem add_request_exact_sum (c : Codec) (bs : List Nat) (ar : AddRequest)
    (hne : bs ≠ []) (hdec : c.decode bs = Except.ok ⟨some (ClientMessage.addRequest ar)⟩)
    (ha1 : -2147483648 ≤ ar.a) (ha2 : ar.a < 2147483648)
    (hb1 : -2147483648 ≤ ar.b) (hb2 : ar.b < 2147483648)
    (hlo : -2147483648 ≤ ar.a + ar.b) (hhi : ar.a + ar.b < 2147483648) :
    handleStep c true (ReadEvent.readOk bs) =
      ⟨[c.encode ⟨some (ServerMessage.addResponse ⟨ar.a + ar.b⟩)⟩],
       [LogMsg.infoReceivedAdd ar.a ar.b, LogMsg.infoSentAdd (ar.a + ar.b)],
       StepAction.contLoop⟩ := by
  cases bs with
  | nil => exact absurd rfl hne
  | cons b rest =>
    have h := i32Add_eq_of_representable ar.a ar.b hlo hhi
    simp [handleStep, hdec, h]

/-- Witness for C2 at `a = 10`, `b = 20`, giving result 30. -/
theorem add_request_exact_sum_witness :
    handleStep demoCodec true (ReadEvent.readOk [2]) =
      ⟨[demoCodec.encode ⟨some (ServerMessage.addResponse ⟨30⟩)⟩],
       [LogMsg.infoReceivedAdd 10 20, LogMsg.infoSentAdd 30],
       StepAction.contLoop⟩ :=
  add_request_exact_sum demoCodec [2] ⟨10, 20⟩ (by simp) rfl
    (by decide) (by decide) (by decide) (by decide) (by decide) (by decide)

/-- On a read that decodes to a populated variant `m` with a succeeding
write, one handler iteration writes exactly the encoding of `dispatch m`
and continues the loop. -/
theorem handleStep_populated (c : Codec) (bs : List Nat) (m : ClientMessage)
    (hne : bs ≠ []) (hdec : c.decode bs = Except.ok ⟨some m⟩) :
    (handleStep c true (ReadEvent.readOk bs)).writes = [c.encode (dispatch m)] ∧
    (handleStep c true (ReadEvent.readOk bs)).action = StepAction.contLoop := by
  cases bs with
  | nil => exact absurd rfl hne
  | cons b rest =>
    cases m with
    | echoMessage em => simp [handleStep, hdec, dispatch]
    | addRequest ar => simp [handleStep, hdec, dispatch]

/-- Unfolding `clientHandle` one iteration when the step continues the
loop. -/
theorem clientHandle_cons_cont (c : Codec) (ev : ReadEvent) (w : Bool)
    (rest : List (ReadEvent × Bool))
    (h : (handleStep c w ev).action = StepAction.contLoop) :
    clientHandle c ((ev, w) :: rest) =
      ⟨(handleStep c w ev).writes ++ (clientHandle c rest).writes,
       (handleStep c w ev).logs ++ (clientHandle c rest).logs,
       (clientHandle c rest).status⟩ := by
  simp only [clientHandle]
  rw [h]

/-- C3: within one connection the handler is strictly sequential — each
read/decode/dispatch/write cycle completes, including its write, before
the next read is consumed — so over any trace of well-formed populated
requests the written responses are exactly the dispatched responses in
the order the requests arrived, and the connection stays open. -/
theorem sequential_request_response_order (c : Codec)
    (reqs : List (List Nat × ClientMessage))
    (h : ∀ p ∈ reqs, p.1 ≠ [] ∧ c.decode p.1 = Except.ok ⟨some p.2⟩) :
    (clientHandle c (reqs.map (fun p => (ReadEvent.readOk p.1, true)))).writes
      = reqs.map (fun p => c.encode (dispatch p.2)) ∧
    (clientHandle c (reqs.map (fun p => (ReadEvent.readOk p.1, true)))).status
      = HandlerStatus.running := by
  induction reqs with
  | nil => exact ⟨rfl, rfl⟩
  | cons p rest ih =>
    have hp := h p (List.mem_cons_self p rest)
    have hrest : ∀ q ∈ rest, q.1 ≠ [] ∧ c.decode q.1 = Except.ok ⟨some q.2⟩ :=
      fun q hq => h q (List.mem_cons_of_mem p hq)
    have hstep := handleStep_populated c p.1 p.2 hp.1 hp.2
    have hih := ih hrest
    rw [List.map_cons, List.map_cons,
      clientHandle_cons_cont c (ReadEvent.readOk p.1) true _ hstep.2]
    exact ⟨by rw [hstep.1, hih.1]; rfl, hih.2⟩

/-- Witness for C3: an echo request followed by an add request receive
their responses in exactly that order. -/
theorem sequential_request_response_order_witness :
    (clientHandle demoCodec
        [(ReadEvent.readOk [1], true), (ReadEvent.readOk [2], true)]).writes
      = [demoCodec.encode (dispatch (ClientMessage.echoMessage ⟨"hello"⟩)),
         demoCodec.encode (dispatch (ClientMessage.addRequest ⟨10, 20⟩))] ∧
    (clientHandle demoCodec
        [(ReadEvent.readOk [1], true), (ReadEvent.readOk [2], true)]).status
      = HandlerStatus.running :=
  sequential_request_response_order demoCodec
    [([1], ClientMessage.echoMessage ⟨"hello"⟩),
     ([2], ClientMessage.addRequest ⟨10, 20⟩)]
    (by
      intro p hp
      rcases List.mem_cons.mp hp with rfl | hp2
      · exact ⟨by simp, rfl⟩
      · rcases List.mem_cons.mp hp2 with rfl | hp3
        · exact ⟨by simp, rfl⟩
        · cases hp3)

/-- C6: a read of `N > 0` bytes that fail to decode makes the handler log
an error, write nothing, and continue with the connection open; a
subsequent well-formed message on the same connection is then processed
normally and answered. -/
theorem malformed_bytes_recoverable (c : Codec) (bad good : List Nat)
    (em : EchoMessage) (w : Bool)
    (hbadne : bad ≠ []) (hdecBad : c.decode bad = Except.error ())
    (hgoodne : good ≠ [])
    (hdecGood : c.decode good = Except.ok ⟨some (ClientMessage.echoMessage em)⟩) :
    handleStep c w (ReadEvent.readOk bad) =
        ⟨[], [LogMsg.errorDecode], StepAction.contLoop⟩ ∧
    clientHandle c [(ReadEvent.readOk bad, true), (ReadEvent.readOk good, true)] =
      ⟨[c.encode ⟨some (ServerMessage.echoMessage em)⟩],
       [LogMsg.errorDecode, LogMsg.infoReceivedEcho em.content],
       HandlerStatus.running⟩ := by
  cases bad with
  | nil => exact absurd rfl hbadne
  | cons b brest =>
    cases good with
    | nil => exact absurd rfl hgoodne
    | cons g grest =>
      constructor
      · simp [handleStep, hdecBad]
      · simp [clientHandle, handleStep, hdecBad, hdecGood]

/-- Witness for C6: garbage bytes `[9]` then a well-formed echo `[1]`. -/
theorem malformed_bytes_recoverable_witness :
    handleStep demoCodec true (ReadEvent.readOk [9]) =
        ⟨[], [LogMsg.errorDecode], StepAction.contLoop⟩ ∧
    clientHandle demoCodec [(ReadEvent.readOk [9], true), (ReadEvent.readOk [1], true)] =
      ⟨[demoCodec.encode ⟨some (ServerMessage.echoMessage ⟨"hello"⟩)⟩],
       [LogMsg.errorDecode, LogMsg.infoReceivedEcho "hello"],
       HandlerStatus.running⟩ :=
  malformed_bytes_recoverable demoCodec [9] [1] ⟨"hello"⟩ true
    (by simp) rfl (by simp) rfl

/-- C7: a read whose bytes decode to an envelope with no variant
populated makes the handler log at warn level (not error), write nothing,
and continue the loop; the branch is distinct from the malformed-bytes
one, whose log is a different message at error level. -/
theorem none_variant_warns (c : Codec) (bs : List Nat) (w : Bool)
    (hne : bs ≠ []) (hdec : c.decode bs = Except.ok ⟨none⟩) :
    handleStep c w (ReadEvent.readOk bs) =
        ⟨[], [LogMsg.warnNoneType], StepAction.contLoop⟩ ∧
    severity LogMsg.warnNoneType = LogLevel.warn ∧
    severity LogMsg.errorDecode = LogLevel.error ∧
    LogMsg.warnNoneType ≠ LogMsg.errorDecode := by
  cases bs with
  | nil => exact absurd rfl hne
  | cons b rest =>
    exact ⟨by simp [handleStep, hdec], rfl, rfl, by decide⟩

/-- Witness for C7 at bytes `[3]`, which decode to an empty envelope. -/
theorem none_variant_warns_witness :
    handleStep demoCodec true (ReadEvent.readOk [3]) =
        ⟨[], [LogMsg.warnNoneType], StepAction.contLoop⟩ ∧
    severity LogMsg.warnNoneType = LogLevel.warn ∧
    severity LogMsg.errorDecode = LogLevel.error ∧
    LogMsg.warnNoneType ≠ LogMsg.errorDecode :=
  none_variant_warns demoCodec [3] true (by simp) rfl

/-- The handler step ends the loop cleanly exactly on a zero-byte read or
a non-would-block read error. -/
theorem handleStep_exitClean_iff (c : Codec) (w : Bool) (ev : ReadEvent) :
    (handleStep c w ev).action = StepAction.exitClean ↔
      ev = ReadEvent.readOk [] ∨ ev = ReadEvent.readErr := by
  cases ev with
  | readOk bs =>
    cases bs with
    | nil => simp [handleStep]
    | cons b rest =>
      cases hd : c.decode (b :: rest) with
      | error e => simp [handleStep, hd]
      | ok wr =>
        obtain ⟨msg⟩ := wr
        cases msg with
        | none => simp [handleStep, hd]
        | some m =>
          cases m with
          | echoMessage em => cases w <;> simp [handleStep, hd]
          | addRequest ar => cases w <;> simp [handleStep, hd]
  | wouldBlock => simp [handleStep]
  | readErr => simp [handleStep]

/-- The handler step propagates an error exactly when a populated request
was decoded and the response write failed. -/
theorem handleStep_exitErr_iff (c : Codec) (w : Bool) (ev : ReadEvent) :
    (handleStep c w ev).action = StepAction.exitErr ↔
      ∃ bs m, ev = ReadEvent.readOk bs ∧ bs ≠ [] ∧
        c.decode bs = Except.ok ⟨some m⟩ ∧ w = false := by
  cases ev with
  | readOk bs =>
    cases bs with
    | nil => simp [handleStep]
    | cons b rest =>
      cases hd : c.decode (b :: rest) with
      | error e => simp [handleStep, hd]
      | ok wr =>
        obtain ⟨msg⟩ := wr
        cases msg with
        | none => simp [handleStep, hd]
        | some m =>
          cases m with
          | echoMessage em =>
            cases w
            · constructor
              · intro _
                exact ⟨b :: rest, ClientMessage.echoMessage em, rfl, by simp, hd, rfl⟩
              · intro _
                simp [handleStep, hd]
            · simp [handleStep, hd]
          | addRequest ar =>
            cases w
            · constructor
              · intro _
                exact ⟨b :: rest, ClientMessage.addRequest ar, rfl, by simp, hd, rfl⟩
              · intro _
                simp [handleStep, hd]
            · simp [handleStep, hd]
  | wouldBlock => simp [handleStep]
  | readErr => simp [handleStep]

/-- A clean step exit makes the whole handler finish cleanly. -/
theorem clientHandle_cons_exitClean (c : Codec) (ev : ReadEvent) (w : Bool)
    (rest : List (ReadEvent × Bool))
    (h : (handleStep c w ev).action = StepAction.exitClean) :
    (clientHandle c ((ev, w) :: rest)).status = HandlerStatus.finishedClean := by
  simp only [clientHandle]
  rw [h]

/-- An error step exit makes the whole handler finish with the propagated
error. -/
theorem clientHandle_cons_exitErr (c : Codec) (ev : ReadEvent) (w : Bool)
    (rest : List (ReadEvent × Bool))
    (h : (handleStep c w ev).action = StepAction.exitErr) :
    (clientHandle c ((ev, w) :: rest)).status = HandlerStatus.finishedErr := by
  simp only [clientHandle]
  rw [h]

/-- C8: the handler loop terminates cleanly (returning `Ok(())` after
logging) exactly on a zero-byte read — peer closed — or a non-would-block
read error, and terminates with a propagated error exactly when a response
write fails; in the latter cases the loop result is `finishedErr`, in the
former `finishedClean`. -/
theorem handler_exit_characterization (c : Codec) :
    (∀ (w : Bool) (ev : ReadEvent),
      (handleStep c w ev).action = StepAction.exitClean ↔
        ev = ReadEvent.readOk [] ∨ ev = ReadEvent.readErr) ∧
    (∀ w : Bool, handleStep c w (ReadEvent.readOk []) =
        ⟨[], [LogMsg.infoDisconnected], StepAction.exitClean⟩) ∧
    (∀ w : Bool, handleStep c w ReadEvent.readErr =
        ⟨[], [LogMsg.errorRead], StepAction.exitClean⟩) ∧
    (∀ (w : Bool) (ev : ReadEvent),
      (handleStep c w ev).action = StepAction.exitErr ↔
        ∃ bs m, ev = ReadEvent.readOk bs ∧ bs ≠ [] ∧
          c.decode bs = Except.ok ⟨some m⟩ ∧ w = false) ∧
    (∀ (ev : ReadEvent) (w : Bool) (rest : List (ReadEvent × Bool)),
      ((handleStep c w ev).action = StepAction.exitClean →
        (clientHandle c ((ev, w) :: rest)).status = HandlerStatus.finishedClean) ∧
      ((handleStep c w ev).action = StepAction.exitErr →
        (clientHandle c ((ev, w) :: rest)).status = HandlerStatus.finishedErr)) :=
  ⟨handleStep_exitClean_iff c, fun _ => rfl, fun _ => rfl,
   handleStep_exitErr_iff c,
   fun ev w rest =>
     ⟨clientHandle_cons_exitClean c ev w rest, clientHandle_cons_exitErr c ev w rest⟩⟩

/-- Witness for C8: a zero-byte read finishes the handler cleanly. -/
theorem handler_exit_characterization_witness :
    (clientHandle demoCodec [(ReadEvent.readOk [], true)]).status
      = HandlerStatus.finishedClean :=
  ((handler_exit_characterization demoCodec).2.2.2.2
    (ReadEvent.readOk []) true []).1 rfl

/-- The drain leaves an empty registry. -/
theorem drainLoop_registry (l : List Bool) : (drainLoop l).1 = [] := by
  induction l with
  | nil => rfl
  | cons j rest ih => simp [drainLoop, ih]

/-- The drain joins every handle it pops. -/
theorem drainLoop_joined (l : List Bool) : (drainLoop l).2.2 = l.length := by
  induction l with
  | nil => rfl
  | cons j rest ih => simp [drainLoop, ih]

/-- The drain warns once per failed join and keeps going. -/
theorem drainLoop_warnCount (l : List Bool) :
    (drainLoop l).2.1.count LogMsg.warnJoinFail = l.count false := by
  induction l with
  | nil => rfl
  | cons j rest ih => cases j <;> simp [drainLoop, List.count_cons, ih]

/-- The accept phase never emits the join-failure warning. -/
theorem acceptLogs_no_joinFail (evs : List AcceptEvent) :
    (acceptLogs evs).count LogMsg.warnJoinFail = 0 := by
  induction evs with
  | nil => rfl
  | cons e rest ih => cases e <;> simp [acceptLogs, List.count_cons, ih]

/-- C4: once the running flag reads false the accept loop exits and `run`
drains the registry: every registered worker handle is popped and joined,
each individual join failure is logged as a warning without aborting the
drain, and `run` returns `Ok` with the registry empty. -/
theorem run_drains_and_joins_all (evs : List AcceptEvent) :
    (runModel evs).finalRegistry = [] ∧
    (runModel evs).joined = (registryOf evs).length ∧
    (runModel evs).logs.count LogMsg.warnJoinFail = (registryOf evs).count false ∧
    (runModel evs).retOk = true := by
  refine ⟨?_, ?_, ?_, rfl⟩
  · simpa [runModel] using drainLoop_registry (registryOf evs).reverse
  · simpa [runModel] using drainLoop_joined (registryOf evs).reverse
  · simp [runModel, List.count_append, List.count_cons, acceptLogs_no_joinFail,
      drainLoop_warnCount, List.count_reverse]

/-- The characterization of the `stop()` wait loop: for every sequence of
flag observations it ends either because a load returned false within the
at most 51 sleeps the guard allows, or at the 51st poll where more than
5000ms have elapsed; the fuel never runs out. -/
theorem stopWaitGo_characterization (obs : Nat → Bool) :
    ∀ fuel i, i ≤ 51 → 52 ≤ i + fuel →
      (∃ j, j ≤ 51 ∧ stopWaitGo obs fuel i = WaitOutcome.observedFalse j) ∨
      stopWaitGo obs fuel i = WaitOutcome.timedOut 51 := by
  intro fuel
  induction fuel with
  | zero => intro i h1 h2; omega
  | succ n ih =>
    intro i h1 h2
    by_cases ho : obs i = true
    · by_cases ht : 100 * i > 5000
      · right
        have hi : i = 51 := by omega
        subst hi
        simp [stopWaitGo, ho, ht]
      · have hrec := ih (i + 1) (by omega) (by omega)
        simpa [stopWaitGo, ho, ht] using hrec
    · left
      exact ⟨i, h1, by simp [stopWaitGo, ho]⟩

/-- C5: calling `stop()` while running flips the flag to false and then
blocks polling it: either some load observes false (within the 51 sleeps
the elapsed-time guard allows) or after more than 5 seconds (the 51st
poll, 100ms per sleep) it logs the timeout warning and returns; the
clients registry is untouched — `stop` joins no worker handle, draining
being `run`'s job alone. -/
theorem stop_signals_and_bounded_wait (s : ServerState) (obs : Nat → Bool)
    (h : s.isRunning = true) :
    (stopModel s obs).state.isRunning = false ∧
    (stopModel s obs).state.clients = s.clients ∧
    ((∃ i, i ≤ 51 ∧ (stopModel s obs).wait = some (WaitOutcome.observedFalse i)) ∨
      ((stopModel s obs).wait = some (WaitOutcome.timedOut 51) ∧
        LogMsg.warnTooLong ∈ (stopModel s obs).logs ∧ 5000 < 100 * 51)) := by
  have hchar := stopWaitGo_characterization obs 60 0 (by omega) (by omega)
  refine ⟨by simp [stopModel, h], by simp [stopModel, h], ?_⟩
  rcases hchar with ⟨j, hj, hw⟩ | hw
  · left
    exact ⟨j, hj, by simp [stopModel, h, stopWait, hw]⟩
  · right
    refine ⟨by simp [stopModel, h, stopWait, hw], ?_, by omega⟩
    simp [stopModel, h, stopWait, hw]

/-- Witness for C5 on a running server with one registered worker and an
environment where the flag stays false once stored. -/
theorem stop_signals_and_bounded_wait_witness :
    (stopModel ⟨true, [true]⟩ (fun _ => false)).state.isRunning = false ∧
    (stopModel ⟨true, [true]⟩ (fun _ => false)).state.clients = [true] ∧
    ((∃ i, i ≤ 51 ∧ (stopModel ⟨true, [true]⟩ (fun _ => false)).wait
        = some (WaitOutcome.observedFalse i)) ∨
      ((stopModel ⟨true, [true]⟩ (fun _ => false)).wait
          = some (WaitOutcome.timedOut 51) ∧
        LogMsg.warnTooLong ∈ (stopModel ⟨true, [true]⟩ (fun _ => false)).logs ∧
        5000 < 100 * 51)) :=
  stop_signals_and_bounded_wait ⟨true, [true]⟩ (fun _ => false) rfl

/-- C9: `stop()` is idempotent — on a server whose flag is already false
(never ran, or already stopped) it changes no state, logs only the no-op
warning, and never enters the wait loop; in particular a second `stop()`
after any first `stop()` is exactly this no-op. -/
theorem stop_idempotent_noop (s : ServerState) (obs obs2 : Nat → Bool) :
    (s.isRunning = false →
      stopModel s obs = ⟨s, [LogMsg.warnAlreadyStopped], none⟩) ∧
    stopModel (stopModel s obs).state obs2 =
      ⟨(stopModel s obs).state, [LogMsg.warnAlreadyStopped], none⟩ := by
  constructor
  · intro h
    simp [stopModel, h]
  · have h : (stopModel s obs).state.isRunning = false := by
      by_cases hr : s.isRunning <;> simp [stopModel, hr]
    generalize hgen : (stopModel s obs).state = t at h ⊢
    simp [stopModel, h]

/-- Witness for C9 on a server that never ran. -/
theorem stop_idempotent_noop_witness :
    stopModel ⟨false, []⟩ (fun _ => false) =
      ⟨⟨false, []⟩, [LogMsg.warnAlreadyStopped], none⟩ :=
  (stop_idempotent_noop ⟨false, []⟩ (fun _ => false) (fun _ => false)).1 rfl

/-- C10: `stop()` stores false before the wait loop's first load and
nothing in `stop()` stores true again, so with the loads returning the
value just stored (`run` only reads the flag after its initial store, so
there is no concurrent writer whether or not `run` has exited) the
wait-loop body executes zero times: `stop` returns right after the
shutdown signal, never sleeps the 100ms interval, and never reaches the
5-second timeout branch. -/
theorem stop_wait_loop_zero_iterations (s : ServerState) (h : s.isRunning = true) :
    (stopModel s (fun _ => false)).wait = some (WaitOutcome.observedFalse 0) ∧
    LogMsg.warnTooLong ∉ (stopModel s (fun _ => false)).logs := by
  have hw : stopWait (fun _ => false) = WaitOutcome.observedFalse 0 := rfl
  constructor
  · simp [stopModel, h, hw]
  · simp [stopModel, h, hw]

/-- Witness for C10 on a concrete running server. -/
theorem stop_wait_loop_zero_iterations_witness :
    (stopModel ⟨true, []⟩ (fun _ => false)).wait
        = some (WaitOutcome.observedFalse 0) ∧
    LogMsg.warnTooLong ∉ (stopModel ⟨true, []⟩ (fun _ => false)).logs :=
  stop_wait_loop_zero_iterations ⟨true, []⟩ rfl

end RustTask
